import Mathlib

/-!
Verification development for the Hodgkin-Huxley action-potential notebook
(`Hodgkin-Huxley_AP.ipynb`).

The notebook defines a class `HodgkinHuxleyModel` (membrane parameters,
a 4-element state vector `[V, m, h, n]`, six voltage-dependent rate
functions, ionic currents, the ODE right-hand side `dALLdt`, and a
string-dispatched fixed-step integrator `Solvers`), followed by a
simulation cell that converts a binary spike train into a drive current
through a double-exponential synaptic trace `(r, hr)`, iterates the model,
records the trajectory, and counts upward zero-crossings of the voltage.

The embedding below models the numeric type as `ℝ` (the source uses
float64) and the 4-element numpy state vector as `Fin 4 → ℝ` with the
pointwise arithmetic instances, which mirror numpy broadcasting.
Python's `None` results are modelled with `Option`.
-/

open Real Filter Topology

/-- Rate function `alpha_m` from the source:
`0.1*(V+40.0)/(1.0 - np.exp(-(V+40.0) / 10.0))`.
(A method on the class in the source, but it reads no instance state.)
Note: at `V = -40` the denominator is exactly `0` and the numerator is `0`;
the source (numpy float64) evaluates `0.0/0.0` to NaN there, while this
real-valued embedding's total division returns the junk value `0`. -/
noncomputable def alpha_m (V : ℝ) : ℝ :=
  0.1 * (V + 40.0) / (1.0 - Real.exp (-(V + 40.0) / 10.0))

/-- Rate function `beta_m` from the source: `4.0*np.exp(-(V+65.0) / 18.0)`. -/
noncomputable def beta_m (V : ℝ) : ℝ :=
  4.0 * Real.exp (-(V + 65.0) / 18.0)

/-- Rate function `alpha_h` from the source: `0.07*np.exp(-(V+65.0) / 20.0)`. -/
noncomputable def alpha_h (V : ℝ) : ℝ :=
  0.07 * Real.exp (-(V + 65.0) / 20.0)

/-- Rate function `beta_h` from the source: `1.0/(1.0 + np.exp(-(V+35.0) / 10.0))`. -/
noncomputable def beta_h (V : ℝ) : ℝ :=
  1.0 / (1.0 + Real.exp (-(V + 35.0) / 10.0))

/-- Rate function `alpha_n` from the source:
`0.01*(V+55.0)/(1.0 - np.exp(-(V+55.0) / 10.0))`.
As with `alpha_m`, the denominator is exactly `0` at `V = -55` (the source
produces NaN there; the embedding's total division returns `0`). -/
noncomputable def alpha_n (V : ℝ) : ℝ :=
  0.01 * (V + 55.0) / (1.0 - Real.exp (-(V + 55.0) / 10.0))

/-- Rate function `beta_n` from the source: `0.125*np.exp(-(V+65) / 80.0)`. -/
noncomputable def beta_n (V : ℝ) : ℝ :=
  0.125 * Real.exp (-(V + 65) / 80.0)

/-- The `HodgkinHuxleyModel` class: seven membrane constants, the solver
selector string, the step size, the current state `[V, m, h, n]`, and the
most recently supplied drive current `I_m` (`None` before the first call,
hence `Option ℝ`). -/
structure HodgkinHuxleyModel where
  C_m : ℝ
  g_Na : ℝ
  g_K : ℝ
  g_L : ℝ
  E_Na : ℝ
  E_K : ℝ
  E_L : ℝ
  solver : String
  dt : ℝ
  states : Fin 4 → ℝ
  I_m : Option ℝ

/-- `HodgkinHuxleyModel.__init__(dt, solver)` from the source (the source's
default arguments are `dt=1e-3`, `solver="RK4"`): fixed constants, initial
state `[-65, 0.05, 0.6, 0.32]`, and `I_m = None`. No validation of any
argument is performed. -/
noncomputable def HodgkinHuxleyModel.init (dt : ℝ) (solver : String) :
    HodgkinHuxleyModel where
  C_m := 1.0
  g_Na := 120.0
  g_K := 36.0
  g_L := 0.3
  E_Na := 50.0
  E_K := -77.0
  E_L := -54.387
  solver := solver
  dt := dt
  states := ![-65, 0.05, 0.6, 0.32]
  I_m := none

/-- `Solvers(self, func, x, dt)` from the source: string dispatch on
`self.solver`.  `"RK4"` runs the classical four-stage Runge-Kutta update,
`"Euler"` the forward-Euler update, and any other string falls through to
`return None` (modelled as `none`). -/
noncomputable def HodgkinHuxleyModel.Solvers (M : HodgkinHuxleyModel)
    (func : (Fin 4 → ℝ) → (Fin 4 → ℝ)) (x : Fin 4 → ℝ) (dt : ℝ) :
    Option (Fin 4 → ℝ) :=
  if M.solver = "RK4" then
    let k1 := dt • func x
    let k2 := dt • func (x + (0.5 : ℝ) • k1)
    let k3 := dt • func (x + (0.5 : ℝ) • k2)
    let k4 := dt • func (x + k3)
    some (x + (6 : ℝ)⁻¹ • (k1 + (2 : ℝ) • k2 + (2 : ℝ) • k3 + k4))
  else if M.solver = "Euler" then
    some (x + dt • func x)
  else
    none

/-- Instrumented copy of `Solvers` that additionally records, in call
order, every argument at which `func` is evaluated.  It performs exactly
the same computation as `Solvers`; the second component of the result is
the list of evaluation points. -/
noncomputable def HodgkinHuxleyModel.SolversEvals (M : HodgkinHuxleyModel)
    (func : (Fin 4 → ℝ) → (Fin 4 → ℝ)) (x : Fin 4 → ℝ) (dt : ℝ) :
    Option ((Fin 4 → ℝ) × List (Fin 4 → ℝ)) :=
  if M.solver = "RK4" then
    let e1 := x
    let k1 := dt • func e1
    let e2 := x + (0.5 : ℝ) • k1
    let k2 := dt • func e2
    let e3 := x + (0.5 : ℝ) • k2
    let k3 := dt • func e3
    let e4 := x + k3
    let k4 := dt • func e4
    some (x + (6 : ℝ)⁻¹ • (k1 + (2 : ℝ) • k2 + (2 : ℝ) • k3 + k4),
      [e1, e2, e3, e4])
  else if M.solver = "Euler" then
    some (x + dt • func x, [x])
  else
    none

/-- `I_Na(self, V, m, h)` from the source: `g_Na * m**3 * h * (V - E_Na)`. -/
noncomputable def HodgkinHuxleyModel.I_Na (M : HodgkinHuxleyModel)
    (V m h : ℝ) : ℝ :=
  M.g_Na * m ^ 3 * h * (V - M.E_Na)

/-- `I_K(self, V, n)` from the source: `g_K * n**4 * (V - E_K)`. -/
noncomputable def HodgkinHuxleyModel.I_K (M : HodgkinHuxleyModel)
    (V n : ℝ) : ℝ :=
  M.g_K * n ^ 4 * (V - M.E_K)

/-- `I_L(self, V)` from the source: `g_L * (V - E_L)`. -/
noncomputable def HodgkinHuxleyModel.I_L (M : HodgkinHuxleyModel) (V : ℝ) : ℝ :=
  M.g_L * (V - M.E_L)

/-- `dALLdt(self, states)` from the source: unpacks `V, m, h, n = states`
and returns `[dVdt, dmdt, dhdt, dndt]`.  The source reads `self.I_m`,
which `__call__` always sets to the drive current just before integrating;
in the source, calling `dALLdt` while `I_m` is still `None` would raise a
`TypeError`, so the `Option.getD 0` junk default is never observed through
`__call__`. -/
noncomputable def HodgkinHuxleyModel.dALLdt (M : HodgkinHuxleyModel)
    (states : Fin 4 → ℝ) : Fin 4 → ℝ :=
  let V := states 0
  let m := states 1
  let h := states 2
  let n := states 3
  let dVdt := (M.I_m.getD 0 - M.I_Na V m h - M.I_K V n - M.I_L V) / M.C_m
  let dmdt := alpha_m V * (1.0 - m) - beta_m V * m
  let dhdt := alpha_h V * (1.0 - h) - beta_h V * h
  let dndt := alpha_n V * (1.0 - n) - beta_n V * n
  ![dVdt, dmdt, dhdt, dndt]

/-- `__call__(self, I)` from the source: stores the drive current in
`self.I_m`, advances the state one step with `Solvers(self.dALLdt,
self.states, self.dt)`, stores and returns the new state.  When `Solvers`
returns `None` (unknown solver string), the source stores `None` into
`self.states` and returns `None`; the embedding returns `none` for the
whole call. -/
noncomputable def HodgkinHuxleyModel.call (M : HodgkinHuxleyModel) (I : ℝ) :
    Option ((Fin 4 → ℝ) × HodgkinHuxleyModel) :=
  let M1 : HodgkinHuxleyModel := { M with I_m := some I }
  match M1.Solvers M1.dALLdt M1.states M1.dt with
  | some s => some (s, { M1 with states := s })
  | none => none

/-- `num_steps` of the simulation cell: `nt = round(T/dt)`.  (Python's
`round` rounds halves to even, Mathlib's `round` rounds halves up; the two
differ only when `T/dt` is an exact half-integer, which no claim touches.) -/
noncomputable def numSteps (T dt : ℝ) : ℕ :=
  (round (T / dt)).toNat

/-- The mutable state of the simulation cell: the synaptic trace pair
`(r, hr)` (initialised to `(0, 0)`), the neuron object `HH_neuron`, the
trajectory record `X_arr` (one 4-element row appended per step) and the
recorded `r_list`. -/
structure SimState where
  r : ℝ
  hr : ℝ
  neuron : HodgkinHuxleyModel
  X_arr : List (Fin 4 → ℝ)
  r_list : List ℝ

/-- Initial simulation state of the cell: `r = 0; hr = 0`, a freshly
constructed `HodgkinHuxleyModel(dt=dt, solver=solver)` (the cell uses
`solver="Euler"`), and empty records. -/
noncomputable def initSim (dt : ℝ) (solver : String) : SimState where
  r := 0
  hr := 0
  neuron := HodgkinHuxleyModel.init dt solver
  X_arr := []
  r_list := []

/-- One iteration of the simulation loop, for loop index `i`:
`r = r*(1-dt/tr) + hr*dt` (using the old `hr`), then
`hr = hr*(1-dt/td) + spike[i]/(tr*td)`, record `r`, then
`X = HH_neuron(r*scale)` and append `X` to the trajectory.
The cell hardcodes `scale = 50` (`HH_neuron(r*50)`); it is a parameter
here so that the claims about the drive current can quantify over it.
An out-of-range access `spike[i]` raises `IndexError` in the source and
yields `none` here, as does a `None` result from the neuron call. -/
noncomputable def simStep (dt tr td scale : ℝ) (spike : List ℝ) (i : ℕ)
    (S : SimState) : Option SimState :=
  match spike[i]? with
  | none => none
  | some sp =>
    let r1 := S.r * (1 - dt / tr) + S.hr * dt
    let hr1 := S.hr * (1 - dt / td) + sp / (tr * td)
    match S.neuron.call (r1 * scale) with
    | none => none
    | some (X, N1) =>
      some ⟨r1, hr1, N1, S.X_arr ++ [X], S.r_list ++ [r1]⟩

/-- `n` consecutive iterations of the simulation loop starting at loop
index `i`. -/
noncomputable def simRunAux (dt tr td scale : ℝ) (spike : List ℝ) :
    ℕ → ℕ → SimState → Option SimState
  | _, 0, S => some S
  | i, Nat.succ n, S =>
    (simStep dt tr td scale spike i S).bind (simRunAux dt tr td scale spike (i + 1) n)

/-- The whole simulation loop of the cell: `for i in range(nt)` starting
from the given initial state. -/
noncomputable def simRun (dt tr td scale : ℝ) (spike : List ℝ) (nt : ℕ)
    (S0 : SimState) : Option SimState :=
  simRunAux dt tr td scale spike 0 nt S0

/-- The post-hoc spike counter of the cell:
`np.sum(np.bitwise_and(X_arr[:-1, 0] < 0, X_arr[1:, 0] > 0))` on a voltage
trace, i.e. the number of adjacent pairs with a strictly negative first
entry and a strictly positive second entry. -/
noncomputable def spikeCount (V : List ℝ) : ℕ :=
  ((V.zip V.tail).filter (fun p => decide (p.1 < 0) && decide (0 < p.2))).length

/-- The voltage column `X_arr[:, 0]` of a recorded trajectory. -/
noncomputable def voltageTrace (S : SimState) : List ℝ :=
  S.X_arr.map (fun X => X 0)

/-- The source's per-step synaptic trace update on the pair `(r, hr)`, in
the source's order: `r` is updated first, from the old `hr`. -/
noncomputable def traceStep (dt tr td sp : ℝ) (p : ℝ × ℝ) : ℝ × ℝ :=
  (p.1 * (1 - dt / tr) + p.2 * dt,
   p.2 * (1 - dt / td) + sp / (tr * td))

/-- Counterfactual trace update with the two assignments reversed: `hr` is
updated first and the new `hr` feeds the `r` update.  Used only to state
that reversing the order changes the result. -/
noncomputable def traceStepRev (dt tr td sp : ℝ) (p : ℝ × ℝ) : ℝ × ℝ :=
  let hr1 := p.2 * (1 - dt / td) + sp / (tr * td)
  (p.1 * (1 - dt / tr) + hr1 * dt, hr1)

/-- The RK4 single-step advance exactly as the claim words it: derivative
evaluations at `state`, `state + dt/2*k1`, `state + dt/2*k2`,
`state + dt*k3`, combined as `state + (k1 + 2*k2 + 2*k3 + k4)/6`, where
each `k_i = dt * derivative(...)`. -/
noncomputable def RK4claim (func : (Fin 4 → ℝ) → (Fin 4 → ℝ))
    (x : Fin 4 → ℝ) (dt : ℝ) : Fin 4 → ℝ :=
  let k1 := dt • func x
  let k2 := dt • func (x + (dt / 2) • k1)
  let k3 := dt • func (x + (dt / 2) • k2)
  let k4 := dt • func (x + dt • k3)
  x + (6 : ℝ)⁻¹ • (k1 + (2 : ℝ) • k2 + (2 : ℝ) • k3 + k4)

/-- The RK4 single-step advance as the amended claim words it (and as the
source computes it): derivative evaluations at `state`, `state + k1/2`,
`state + k2/2`, `state + k3`, combined as
`state + (k1 + 2*k2 + 2*k3 + k4)/6`, where each `k_i = dt * derivative(...)`
(no extra factor of `dt` in the stage offsets, since the `k_i` already
carry it). -/
noncomputable def RK4amended (func : (Fin 4 → ℝ) → (Fin 4 → ℝ))
    (x : Fin 4 → ℝ) (dt : ℝ) : Fin 4 → ℝ :=
  let k1 := dt • func x
  let k2 := dt • func (x + (0.5 : ℝ) • k1)
  let k3 := dt • func (x + (0.5 : ℝ) • k2)
  let k4 := dt • func (x + k3)
  x + (6 : ℝ)⁻¹ • (k1 + (2 : ℝ) • k2 + (2 : ℝ) • k3 + k4)

/-- The four points at which the source's RK4 branch evaluates the
derivative, in evaluation order. -/
noncomputable def RK4stages (func : (Fin 4 → ℝ) → (Fin 4 → ℝ))
    (x : Fin 4 → ℝ) (dt : ℝ) : List (Fin 4 → ℝ) :=
  let k1 := dt • func x
  let k2 := dt • func (x + (0.5 : ℝ) • k1)
  let k3 := dt • func (x + (0.5 : ℝ) • k2)
  [x, x + (0.5 : ℝ) • k1, x + (0.5 : ℝ) • k2, x + k3]

/-- The simulation-state value after one loop iteration, as the claim
words it, given the spike-train entry `sp` read at this step: new `r`
from the old `hr`, new `hr` from the old `hr` and `sp`, the neuron driven
with the just-updated `r` times `scale` and advanced by one forward-Euler
step, and both records appended once. -/
noncomputable def simStepClaimed (dt tr td scale sp : ℝ) (S : SimState) :
    SimState :=
  let r1 := S.r * (1 - dt / tr) + S.hr * dt
  let hr1 := S.hr * (1 - dt / td) + sp / (tr * td)
  let N1 : HodgkinHuxleyModel := { S.neuron with I_m := some (r1 * scale) }
  let X := N1.states + N1.dt • N1.dALLdt N1.states
  ⟨r1, hr1, { N1 with states := X }, S.X_arr ++ [X], S.r_list ++ [r1]⟩

/-- Claim C3: for every 4-element state `(V, m, h, n)` and most recently
supplied drive value `I`, the derivative function returns the 4-tuple
ordered identically to the state, with
`dV/dt = (I - I_Na - I_K - I_L) / C_m` for
`I_Na = g_Na * m^3 * h * (V - E_Na)`, `I_K = g_K * n^4 * (V - E_K)`,
`I_L = g_L * (V - E_L)`, and `dx/dt = alpha_x(V)*(1-x) - beta_x(V)*x`
for each gate `x` in `{m, h, n}`. -/
theorem dALLdt_formula (M : HodgkinHuxleyModel) (I : ℝ) (s : Fin 4 → ℝ) :
    HodgkinHuxleyModel.dALLdt { M with I_m := some I } s =
      ![(I - M.g_Na * (s 1) ^ 3 * (s 2) * (s 0 - M.E_Na)
           - M.g_K * (s 3) ^ 4 * (s 0 - M.E_K)
           - M.g_L * (s 0 - M.E_L)) / M.C_m,
        alpha_m (s 0) * (1 - s 1) - beta_m (s 0) * s 1,
        alpha_h (s 0) * (1 - s 2) - beta_h (s 0) * s 2,
        alpha_n (s 0) * (1 - s 3) - beta_n (s 0) * s 3] := by
  funext i
  fin_cases i <;>
    norm_num [HodgkinHuxleyModel.dALLdt, HodgkinHuxleyModel.I_Na,
      HodgkinHuxleyModel.I_K, HodgkinHuxleyModel.I_L]

/-- Claim C5: when the `"Euler"` strategy is selected, a single-step
advance returns `state + dt * derivative(state)`, with exactly one
derivative evaluation (at `state`), for every derivative function, state
vector, and step size. -/
theorem euler_step_formula (M : HodgkinHuxleyModel)
    (func : (Fin 4 → ℝ) → (Fin 4 → ℝ)) (x : Fin 4 → ℝ) (dt : ℝ)
    (h : M.solver = "Euler") :
    M.Solvers func x dt = some (x + dt • func x) ∧
    M.SolversEvals func x dt = some (x + dt • func x, [x]) ∧
    ([x] : List (Fin 4 → ℝ)).length = 1 := by
  unfold HodgkinHuxleyModel.Solvers HodgkinHuxleyModel.SolversEvals
  rw [h]
  refine ⟨?_, ?_, rfl⟩ <;> rw [if_neg (by decide), if_pos rfl]

/-- Witness for claim C5 at a concrete model, derivative function, state
and step size. -/
theorem euler_step_formula_witness :
    (HodgkinHuxleyModel.init 1 "Euler").solver = "Euler" ∧
    ((HodgkinHuxleyModel.init 1 "Euler").Solvers (fun v => v)
        (fun _ => (0 : ℝ)) 1 =
      some ((fun _ => (0 : ℝ)) + (1 : ℝ) • (fun v => v) (fun _ => (0 : ℝ))) ∧
    (HodgkinHuxleyModel.init 1 "Euler").SolversEvals (fun v => v)
        (fun _ => (0 : ℝ)) 1 =
      some ((fun _ => (0 : ℝ)) + (1 : ℝ) • (fun v => v) (fun _ => (0 : ℝ)),
        [fun _ => (0 : ℝ)]) ∧
    ([fun _ => (0 : ℝ)] : List (Fin 4 → ℝ)).length = 1) :=
  ⟨rfl, euler_step_formula (HodgkinHuxleyModel.init 1 "Euler") (fun v => v)
    (fun _ => (0 : ℝ)) 1 rfl⟩

/-- Counterexample to claim C4 as stated: with the identity derivative
function, the constant-1 state vector and `dt = 2`, the source's RK4
branch yields the constant-7 vector, whereas the claim's stage formula
(`state + dt/2*k1` etc. with `k_i = dt * derivative(...)`) yields the
constant-53/3 vector; the two disagree, because the claim's stage offsets
carry an extra factor of `dt` (the `k_i` already contain `dt`, and the
source offsets by `0.5*k1`, not `dt/2*k1`). -/
theorem rk4_claim_counterexample :
    (HodgkinHuxleyModel.init 2 "RK4").Solvers (fun v => v) (fun _ => (1 : ℝ)) 2 =
      some (fun _ => (7 : ℝ)) ∧
    RK4claim (fun v => v) (fun _ => (1 : ℝ)) 2 = (fun _ => (53 / 3 : ℝ)) ∧
    (HodgkinHuxleyModel.init 2 "RK4").Solvers (fun v => v) (fun _ => (1 : ℝ)) 2 ≠
      some (RK4claim (fun v => v) (fun _ => (1 : ℝ)) 2) := by
  have hcode : (HodgkinHuxleyModel.init 2 "RK4").Solvers (fun v => v)
      (fun _ => (1 : ℝ)) 2 = some (fun _ => (7 : ℝ)) := by
    unfold HodgkinHuxleyModel.Solvers
    rw [if_pos (show (HodgkinHuxleyModel.init 2 "RK4").solver = "RK4" from rfl)]
    refine congrArg some ?_
    funext j
    simp only [Pi.add_apply, Pi.smul_apply, smul_eq_mul]
    norm_num
  have hclaim : RK4claim (fun v => v) (fun _ => (1 : ℝ)) 2 =
      (fun _ => (53 / 3 : ℝ)) := by
    unfold RK4claim
    funext j
    simp only [Pi.add_apply, Pi.smul_apply, smul_eq_mul]
    norm_num
  refine ⟨hcode, hclaim, ?_⟩
  rw [hcode, hclaim]
  intro hEq
  have h3 := congrFun (Option.some.inj hEq) 0
  norm_num at h3

/-- Claim C4 (amended): when the `"RK4"` strategy is selected, a
single-step advance evaluates the derivative exactly four times, at
`state`, `state + k1/2`, `state + k2/2` and `state + k3`, and returns
`state + (k1 + 2*k2 + 2*k3 + k4)/6`, where each `k_i = dt * derivative(...)`
(the stage offsets carry no additional factor of `dt`). -/
theorem rk4_step_formula (M : HodgkinHuxleyModel)
    (func : (Fin 4 → ℝ) → (Fin 4 → ℝ)) (x : Fin 4 → ℝ) (dt : ℝ)
    (h : M.solver = "RK4") :
    M.Solvers func x dt = some (RK4amended func x dt) ∧
    M.SolversEvals func x dt = some (RK4amended func x dt, RK4stages func x dt) ∧
    (RK4stages func x dt).length = 4 := by
  unfold HodgkinHuxleyModel.Solvers HodgkinHuxleyModel.SolversEvals
    RK4amended RK4stages
  rw [h]
  exact ⟨by rw [if_pos rfl], by rw [if_pos rfl], rfl⟩

/-- Witness for the amended claim C4 at a concrete model, derivative
function, state and step size. -/
theorem rk4_step_formula_witness :
    (HodgkinHuxleyModel.init 2 "RK4").solver = "RK4" ∧
    ((HodgkinHuxleyModel.init 2 "RK4").Solvers (fun v => v)
        (fun _ => (1 : ℝ)) 2 =
      some (RK4amended (fun v => v) (fun _ => (1 : ℝ)) 2) ∧
    (HodgkinHuxleyModel.init 2 "RK4").SolversEvals (fun v => v)
        (fun _ => (1 : ℝ)) 2 =
      some (RK4amended (fun v => v) (fun _ => (1 : ℝ)) 2,
        RK4stages (fun v => v) (fun _ => (1 : ℝ)) 2) ∧
    (RK4stages (fun v => v) (fun _ => (1 : ℝ)) 2).length = 4) :=
  ⟨rfl, rk4_step_formula (HodgkinHuxleyModel.init 2 "RK4") (fun v => v)
    (fun _ => (1 : ℝ)) 2 rfl⟩

/-- Helper: with a selector other than the two supported ones, `Solvers`
falls through both branches to `return None`. -/
lemma Solvers_none_of_unsupported (M : HodgkinHuxleyModel)
    (h1 : M.solver ≠ "RK4") (h2 : M.solver ≠ "Euler")
    (func : (Fin 4 → ℝ) → (Fin 4 → ℝ)) (x : Fin 4 → ℝ) (dt : ℝ) :
    M.Solvers func x dt = none := by
  unfold HodgkinHuxleyModel.Solvers
  rw [if_neg h1, if_neg h2]

/-- Helper: with a selector other than the two supported ones, `__call__`
propagates the `None` from `Solvers` and returns `None` itself. -/
lemma call_none_of_unsupported (M : HodgkinHuxleyModel)
    (h1 : M.solver ≠ "RK4") (h2 : M.solver ≠ "Euler") (I : ℝ) :
    M.call I = none := by
  unfold HodgkinHuxleyModel.call
  dsimp only
  rw [Solvers_none_of_unsupported { M with I_m := some I } h1 h2]

/-- Helper: with the `"Euler"` selector, `Solvers` returns the
forward-Euler update. -/
lemma Solvers_euler (M : HodgkinHuxleyModel) (h : M.solver = "Euler")
    (func : (Fin 4 → ℝ) → (Fin 4 → ℝ)) (x : Fin 4 → ℝ) (dt : ℝ) :
    M.Solvers func x dt = some (x + dt • func x) := by
  unfold HodgkinHuxleyModel.Solvers
  rw [h, if_neg (by decide), if_pos rfl]

/-- Counterexample to claim C2 as stated: a model configured with the
unsupported selector `"Heun"` is constructed without any error being
raised or reported, and its step operation then silently returns `None`
(modelled `none`) — the source's `Solvers` has a bare `else: return None`
and `__call__` stores and returns that `None` without raising. -/
theorem unknown_solver_counterexample :
    (HodgkinHuxleyModel.init 0.01 "Heun").Solvers (fun v => v)
      (fun _ => (0 : ℝ)) 0.01 = none ∧
    (HodgkinHuxleyModel.init 0.01 "Heun").call 0 = none :=
  ⟨Solvers_none_of_unsupported _ (by decide) (by decide) _ _ _,
   call_none_of_unsupported _ (by decide) (by decide) 0⟩

/-- Claim C2 (amended): an integrator selector other than the two
supported strategies does not raise or report an error; `Solvers` and the
step operation `__call__` silently return `None` (modelled `none`), the
returned `None` being the only signal, while either supported selector
always yields a defined next state. -/
theorem solver_dispatch (M : HodgkinHuxleyModel)
    (h1 : M.solver ≠ "RK4") (h2 : M.solver ≠ "Euler") :
    (∀ func x dt, M.Solvers func x dt = none) ∧
    (∀ I : ℝ, M.call I = none) ∧
    (∀ (N : HodgkinHuxleyModel) func x dt,
      N.solver = "RK4" ∨ N.solver = "Euler" →
        (N.Solvers func x dt).isSome = true) := by
  refine ⟨fun func x dt => Solvers_none_of_unsupported M h1 h2 func x dt,
    fun I => call_none_of_unsupported M h1 h2 I, ?_⟩
  intro N func x dt hN
  unfold HodgkinHuxleyModel.Solvers
  rcases hN with h | h
  · rw [if_pos h]; rfl
  · rw [h, if_neg (by decide), if_pos rfl]; rfl

/-- Witness for the amended claim C2 at a concrete unsupported selector. -/
theorem solver_dispatch_witness :
    (HodgkinHuxleyModel.init 0.01 "Tortoise").solver ≠ "RK4" ∧
    (HodgkinHuxleyModel.init 0.01 "Tortoise").solver ≠ "Euler" ∧
    ((∀ func x dt,
        (HodgkinHuxleyModel.init 0.01 "Tortoise").Solvers func x dt = none) ∧
    (∀ I : ℝ, (HodgkinHuxleyModel.init 0.01 "Tortoise").call I = none) ∧
    (∀ (N : HodgkinHuxleyModel) func x dt,
      N.solver = "RK4" ∨ N.solver = "Euler" →
        (N.Solvers func x dt).isSome = true)) :=
  ⟨by decide, by decide,
    solver_dispatch (HodgkinHuxleyModel.init 0.01 "Tortoise")
      (by decide) (by decide)⟩

/-- Claim C6: at every step `i` of the run, the synaptic trace pair is
updated exactly once, with the new `r` computed from the old `hr`
(`r1 = r*(1 - dt/tr) + hr*dt`, then `hr1 = hr*(1 - dt/td) +
spike[i]/(tr*td)`), and the drive supplied to the membrane model at that
step is the just-updated `r` times `scale`; the loop iterates exactly one
such step per index; the run starts from `(r, hr) = (0, 0)`; and
reversing the `r`/`hr` update order changes the result. -/
theorem sim_trace_update (dt tr td scale : ℝ) (spike : List ℝ) (i : ℕ)
    (S : SimState) (sp : ℝ) (hsp : spike[i]? = some sp)
    (hsol : S.neuron.solver = "Euler") :
    simStep dt tr td scale spike i S =
      some (simStepClaimed dt tr td scale sp S) ∧
    (∀ n S0, simRunAux dt tr td scale spike i (n + 1) S0 =
      (simStep dt tr td scale spike i S0).bind
        (simRunAux dt tr td scale spike (i + 1) n)) ∧
    (∀ (d : ℝ) (sol : String), (initSim d sol).r = 0 ∧ (initSim d sol).hr = 0) ∧
    traceStep 1 1 1 1 (0, 0) ≠ traceStepRev 1 1 1 1 (0, 0) := by
  refine ⟨?_, fun n S0 => rfl, fun d sol => ⟨rfl, rfl⟩, ?_⟩
  · unfold simStep
    rw [hsp]
    dsimp only
    unfold HodgkinHuxleyModel.call
    dsimp only
    rw [Solvers_euler
      { S.neuron with I_m := some ((S.r * (1 - dt / tr) + S.hr * dt) * scale) }
      hsol]
    rfl
  · intro hEq
    have h0 := congrArg Prod.fst hEq
    simp only [traceStep, traceStepRev] at h0
    norm_num at h0

/-- Witness for claim C6 at a concrete configuration, spike train, loop
index and simulation state. -/
theorem sim_trace_update_witness :
    (([(1 : ℝ)] : List ℝ)[0]? = some 1) ∧
    ((initSim 1 "Euler").neuron.solver = "Euler") ∧
    (simStep 1 1 1 50 [(1 : ℝ)] 0 (initSim 1 "Euler") =
      some (simStepClaimed 1 1 1 50 1 (initSim 1 "Euler")) ∧
    (∀ n S0, simRunAux 1 1 1 50 [(1 : ℝ)] 0 (n + 1) S0 =
      (simStep 1 1 1 50 [(1 : ℝ)] 0 S0).bind
        (simRunAux 1 1 1 50 [(1 : ℝ)] 1 n)) ∧
    (∀ (d : ℝ) (sol : String), (initSim d sol).r = 0 ∧ (initSim d sol).hr = 0) ∧
    traceStep 1 1 1 1 (0, 0) ≠ traceStepRev 1 1 1 1 (0, 0)) :=
  ⟨rfl, rfl,
    sim_trace_update 1 1 1 50 [(1 : ℝ)] 0 (initSim 1 "Euler") 1 rfl rfl⟩

/-- Helper: the list of adjacent pairs of a list, written as an indexed
enumeration over `[0, length - 2]`. -/
lemma zip_tail_map_range (l : List ℝ) :
    l.zip l.tail =
      (List.range (l.length - 1)).map (fun i => (l.getD i 0, l.getD (i + 1) 0)) := by
  induction l with
  | nil => simp
  | cons a t ih =>
    cases t with
    | nil => simp
    | cons b t2 =>
      have ih2 := ih
      simp only [List.tail_cons] at ih2 ⊢
      rw [List.zip_cons_cons, ih2,
        show (a :: b :: t2).length - 1 = t2.length + 1 by simp,
        List.range_succ_eq_map]
      simp [List.map_map, Function.comp_def]

/-- Claim C7: for every voltage trace, the spike count equals the number
of indices `i` in `[0, n-2]` with `V[i] < 0` and `V[i+1] > 0`; the
inequalities are strict, so a transition sitting exactly at zero at
either endpoint is not counted (witnessed by the two concrete traces). -/
theorem spike_count_eq (V : List ℝ) :
    spikeCount V =
      ((List.range (V.length - 1)).filter
        (fun i => decide (V.getD i 0 < 0) && decide (0 < V.getD (i + 1) 0))).length ∧
    spikeCount [(-1 : ℝ), 0] = 0 ∧ spikeCount [(0 : ℝ), 1] = 0 := by
  refine ⟨?_, ?_, ?_⟩
  · rw [spikeCount, zip_tail_map_range, List.filter_map, List.length_map]
    rfl
  · simp [spikeCount, List.filter]
  · simp [spikeCount, List.filter]

/-- Helper: a run of at least one step whose spike train is exhausted
before the steps run out ends in the out-of-range access
`spike[i]` (an `IndexError` at runtime in the source, `none` here). -/
lemma simRunAux_none_of_short (dt tr td scale : ℝ) (spike : List ℝ) :
    ∀ (n i : ℕ) (S : SimState), 0 < n → spike.length < i + n →
      simRunAux dt tr td scale spike i n S = none := by
  intro n
  induction n with
  | zero => exact fun i S h _ => absurd h (lt_irrefl 0)
  | succ n ih =>
    intro i S _ hlen
    rw [show simRunAux dt tr td scale spike i (n + 1) S =
      (simStep dt tr td scale spike i S).bind
        (simRunAux dt tr td scale spike (i + 1) n) from rfl]
    by_cases hi : spike.length ≤ i
    · have hs : spike[i]? = none := List.getElem?_eq_none hi
      unfold simStep
      rw [hs]
      rfl
    · cases hstep : simStep dt tr td scale spike i S with
      | none => rfl
      | some S2 =>
        rw [Option.some_bind]
        exact ih (i + 1) S2 (by omega) (by omega)

/-- Counterexample to claim C8 as stated: configuring the model with the
non-positive step size `dt = -1` succeeds silently — the constructor
stores `-1` and the model steps normally, no error is surfaced — and
configuring the run with an empty spike train (shorter than `nt = 1`)
also succeeds (running zero steps of it reports nothing); the too-short
train only manifests at runtime, when the loop body reaches the first
out-of-range index (`IndexError` in the source, `none` here). -/
theorem config_validation_counterexample :
    (HodgkinHuxleyModel.init (-1) "Euler").dt = -1 ∧
    ((HodgkinHuxleyModel.init (-1) "Euler").call 0).isSome = true ∧
    simRunAux (-1) 2 20 50 [] 0 0 (initSim (-1) "Euler") =
      some (initSim (-1) "Euler") ∧
    simRun (-1) 2 20 50 [] 1 (initSim (-1) "Euler") = none := by
  refine ⟨rfl, ?_, rfl, rfl⟩
  unfold HodgkinHuxleyModel.call
  dsimp only
  rw [Solvers_euler { HodgkinHuxleyModel.init (-1) "Euler" with I_m := some 0 } rfl]
  rfl

/-- Claim C8 (amended): no configuration-time validation exists — the
constructor stores any `dt` (including non-positive values) and any
selector verbatim and the model steps normally, and a spike train shorter
than the required number of steps `nt` is not detected at configuration
time; it causes a runtime out-of-range access when the loop reaches the
first missing index (an `IndexError` in the source, a `none` run result
here). -/
theorem no_config_validation (dtv : ℝ) (solver : String) (tr td scale : ℝ)
    (spike : List ℝ) (nt : ℕ) (S0 : SimState) (h : spike.length < nt) :
    (HodgkinHuxleyModel.init dtv solver).dt = dtv ∧
    (HodgkinHuxleyModel.init dtv solver).solver = solver ∧
    (∀ I : ℝ, ((HodgkinHuxleyModel.init dtv "Euler").call I).isSome = true) ∧
    simRun dtv tr td scale spike nt S0 = none := by
  refine ⟨rfl, rfl, ?_, ?_⟩
  · intro I
    unfold HodgkinHuxleyModel.call
    dsimp only
    rw [Solvers_euler { HodgkinHuxleyModel.init dtv "Euler" with I_m := some I } rfl]
    rfl
  · exact simRunAux_none_of_short dtv tr td scale spike nt 0 S0 (by omega) (by omega)

/-- Witness for the amended claim C8 at a concrete non-positive step size
and a concrete too-short spike train. -/
theorem no_config_validation_witness :
    (([] : List ℝ).length < 1) ∧
    ((HodgkinHuxleyModel.init (-1) "RK4").dt = -1 ∧
    (HodgkinHuxleyModel.init (-1) "RK4").solver = "RK4" ∧
    (∀ I : ℝ, ((HodgkinHuxleyModel.init (-1) "Euler").call I).isSome = true) ∧
    simRun (-1) 2 20 50 [] 1 (initSim (-1) "Euler") = none) :=
  ⟨by decide,
    no_config_validation (-1) "RK4" 2 20 50 [] 1 (initSim (-1) "Euler") (by decide)⟩

/-- Claim C10: the pipeline is deterministic — it is a pure function of
its inputs (the embedding of the source reads no randomness, clock or
other ambient state), so two runs with identical spike train, step size,
time constants, amplitude scale and initial simulation state (which
carries the integrator selector) produce element-wise equal trajectory
records, equal recorded `r` lists, and equal spike counts. -/
theorem pipeline_deterministic (dt1 dt2 tr1 tr2 td1 td2 sc1 sc2 : ℝ)
    (sp1 sp2 : List ℝ) (nt1 nt2 : ℕ) (S1 S2 : SimState)
    (h1 : dt1 = dt2) (h2 : tr1 = tr2) (h3 : td1 = td2) (h4 : sc1 = sc2)
    (h5 : sp1 = sp2) (h6 : nt1 = nt2) (h7 : S1 = S2) :
    simRun dt1 tr1 td1 sc1 sp1 nt1 S1 = simRun dt2 tr2 td2 sc2 sp2 nt2 S2 ∧
    Option.map (fun S => S.X_arr) (simRun dt1 tr1 td1 sc1 sp1 nt1 S1) =
      Option.map (fun S => S.X_arr) (simRun dt2 tr2 td2 sc2 sp2 nt2 S2) ∧
    Option.map (fun S => S.r_list) (simRun dt1 tr1 td1 sc1 sp1 nt1 S1) =
      Option.map (fun S => S.r_list) (simRun dt2 tr2 td2 sc2 sp2 nt2 S2) ∧
    Option.map (fun S => spikeCount (voltageTrace S))
        (simRun dt1 tr1 td1 sc1 sp1 nt1 S1) =
      Option.map (fun S => spikeCount (voltageTrace S))
        (simRun dt2 tr2 td2 sc2 sp2 nt2 S2) := by
  subst h1 h2 h3 h4 h5 h6 h7
  exact ⟨rfl, rfl, rfl, rfl⟩

/-- Witness for claim C10 at a concrete pair of identical configurations. -/
theorem pipeline_deterministic_witness :
    ((1 : ℝ) = 1) ∧ ((2 : ℝ) = 2) ∧ ((20 : ℝ) = 20) ∧ ((50 : ℝ) = 50) ∧
    (([(1 : ℝ)] : List ℝ) = [(1 : ℝ)]) ∧ ((1 : ℕ) = 1) ∧
    (initSim 1 "Euler" = initSim 1 "Euler") ∧
    (simRun 1 2 20 50 [(1 : ℝ)] 1 (initSim 1 "Euler") =
        simRun 1 2 20 50 [(1 : ℝ)] 1 (initSim 1 "Euler") ∧
      Option.map (fun S => S.X_arr) (simRun 1 2 20 50 [(1 : ℝ)] 1 (initSim 1 "Euler")) =
        Option.map (fun S => S.X_arr) (simRun 1 2 20 50 [(1 : ℝ)] 1 (initSim 1 "Euler")) ∧
      Option.map (fun S => S.r_list) (simRun 1 2 20 50 [(1 : ℝ)] 1 (initSim 1 "Euler")) =
        Option.map (fun S => S.r_list) (simRun 1 2 20 50 [(1 : ℝ)] 1 (initSim 1 "Euler")) ∧
      Option.map (fun S => spikeCount (voltageTrace S))
          (simRun 1 2 20 50 [(1 : ℝ)] 1 (initSim 1 "Euler")) =
        Option.map (fun S => spikeCount (voltageTrace S))
          (simRun 1 2 20 50 [(1 : ℝ)] 1 (initSim 1 "Euler"))) :=
  ⟨rfl, rfl, rfl, rfl, rfl, rfl, rfl,
    pipeline_deterministic 1 1 2 2 20 20 50 50 [(1 : ℝ)] [(1 : ℝ)] 1 1
      (initSim 1 "Euler") (initSim 1 "Euler") rfl rfl rfl rfl rfl rfl rfl⟩

/-- Helper: the denominator map `u ↦ 1 - exp(-u/10)` has derivative
`1/10` at `0`. -/
lemma denom_hasDerivAt : HasDerivAt (fun u : ℝ => 1 - Real.exp (-u / 10)) (1 / 10) 0 := by
  have h1 : HasDerivAt (fun u : ℝ => -u / 10) (-1 / 10) 0 := by
    simpa using (hasDerivAt_id (0 : ℝ)).neg.div_const 10
  have h3 := (hasDerivAt_const (0 : ℝ) (1 : ℝ)).sub h1.exp
  convert h3 using 1
  norm_num [Real.exp_zero]

/-- Helper: the removable-singularity limit of the shared shape of
`alpha_m` and `alpha_n`: as `V` approaches `-c` (from either side,
excluding `-c` itself), `a*(V+c)/(1 - exp(-(V+c)/10))` tends to `10*a`. -/
lemma rate_limit (a c : ℝ) :
    Tendsto (fun V : ℝ => a * (V + c) / (1 - Real.exp (-(V + c) / 10)))
      (𝓝[≠] (-c)) (𝓝 (10 * a)) := by
  have hslope : Tendsto (fun u : ℝ => (1 - Real.exp (-u / 10)) / u)
      (𝓝[≠] (0 : ℝ)) (𝓝 (1 / 10)) := by
    have h := hasDerivAt_iff_tendsto_slope.mp denom_hasDerivAt
    refine h.congr fun u => ?_
    simp [slope_def_field, Real.exp_zero]
  have hinv : Tendsto (fun u : ℝ => u / (1 - Real.exp (-u / 10)))
      (𝓝[≠] (0 : ℝ)) (𝓝 10) := by
    have h := hslope.inv₀ (by norm_num : (1 / 10 : ℝ) ≠ 0)
    rw [show ((1 : ℝ) / 10)⁻¹ = 10 by norm_num] at h
    exact h.congr fun u => inv_div _ _
  have htrans : Tendsto (fun V : ℝ => V + c) (𝓝[≠] (-c)) (𝓝[≠] (0 : ℝ)) := by
    rw [tendsto_nhdsWithin_iff]
    constructor
    · have h : Tendsto (fun V : ℝ => V + c) (𝓝 (-c)) (𝓝 (-c + c)) :=
        (continuous_id.add continuous_const).tendsto (-c)
      rw [show -c + c = (0 : ℝ) by ring] at h
      exact h.mono_left nhdsWithin_le_nhds
    · filter_upwards [self_mem_nhdsWithin] with x hx
      simp only [Set.mem_compl_iff, Set.mem_singleton_iff] at hx ⊢
      intro h0
      exact hx (by linarith)
  have h3 := (hinv.comp htrans).const_mul a
  rw [show (10 : ℝ) * a = a * 10 from mul_comm _ _]
  refine h3.congr fun V => ?_
  simp only [Function.comp_apply]
  ring

/-- Claim C1 (the code bug, evaluated): at the singular voltages the
closed-form denominators `1 - exp(0)` are exactly `0`, so the source
computes `0.0/0.0` there — NaN in float64 (the real-valued embedding's
total division returns the junk value `0`) — while the removable-
singularity limits of the same formulas are `1` for `alpha_m` at `-40`
and `0.1` for `alpha_n` at `-55`; the value the code returns is not the
analytic limit, and no special-case branch exists in the source. -/
theorem rate_singularity_unhandled :
    (1 - Real.exp (-((-40 : ℝ) + 40.0) / 10.0) = 0) ∧
    (1 - Real.exp (-((-55 : ℝ) + 55.0) / 10.0) = 0) ∧
    alpha_m (-40) = 0 ∧
    alpha_n (-55) = 0 ∧
    Tendsto alpha_m (𝓝[≠] (-40 : ℝ)) (𝓝 1) ∧
    Tendsto alpha_n (𝓝[≠] (-55 : ℝ)) (𝓝 0.1) ∧
    (0 : ℝ) ≠ 1 ∧ (0 : ℝ) ≠ 0.1 := by
  have hm : Tendsto alpha_m (𝓝[≠] (-40 : ℝ)) (𝓝 1) := by
    have hfun : alpha_m =
        fun V => 0.1 * (V + 40) / (1 - Real.exp (-(V + 40) / 10)) := by
      funext V
      rw [alpha_m]
      norm_num
    have h := rate_limit 0.1 40
    rw [show (10 : ℝ) * 0.1 = 1 by norm_num] at h
    rw [hfun]
    exact h
  have hn : Tendsto alpha_n (𝓝[≠] (-55 : ℝ)) (𝓝 0.1) := by
    have hfun : alpha_n =
        fun V => 0.01 * (V + 55) / (1 - Real.exp (-(V + 55) / 10)) := by
      funext V
      rw [alpha_n]
      norm_num
    have h := rate_limit 0.01 55
    rw [show (10 : ℝ) * 0.01 = 0.1 by norm_num] at h
    rw [hfun]
    exact h
  refine ⟨by norm_num [Real.exp_zero], by norm_num [Real.exp_zero],
    by rw [alpha_m]; norm_num, by rw [alpha_n]; norm_num,
    hm, hn, by norm_num, by norm_num⟩
